import Mathlib

-- Verification of the vampc front end (src/scanner.rs, src/parser.rs):
-- a shallow embedding of the lexer and parser, followed by theorems about
-- lexical coverage, totality/termination, comment merging, error behaviour
-- and the shape of successful parses.

set_option maxRecDepth 4000

-- ===== Data model (scanner.rs) =====

/-- Mirrors `enum Keyword` in scanner.rs. -/
inductive Keyword where
  | Func
  | Let
deriving DecidableEq

/-- Mirrors `enum OperatorSymbol` in scanner.rs. -/
inductive OperatorSymbol where
  | Addition
  | Assignment
  | Equality
  | Subtraction
deriving DecidableEq

/-- Mirrors `enum PairSymbol` in scanner.rs. -/
inductive PairSymbol where
  | CurlyBracket
  | Parentheses
deriving DecidableEq

/-- Mirrors `enum PairType` in scanner.rs. -/
inductive PairType where
  | Open
  | Close
deriving DecidableEq

/-- Mirrors `enum Token` in scanner.rs. -/
inductive Token where
  | Comment (text : String)
  | Identifier (name : String)
  | Keyword (keyword : Keyword)
  | Numeric (lexeme : String)
  | Operator (operator : OperatorSymbol)
  | Pair (symbol : PairSymbol) (side : PairType)
  | String (text : String)
  | Unknown (c : Char)
deriving DecidableEq

-- ===== Scanner (scanner.rs) =====

/-- The character range `'a'..='z' | 'A'..='Z'` used by `Scanner::scan`. -/
def isLetterChar (c : Char) : Bool :=
  ('a' ≤ c && c ≤ 'z') || ('A' ≤ c && c ≤ 'Z')

/-- The character range `'0'..='9'` used by `Scanner::scan`. -/
def isDigitChar (c : Char) : Bool :=
  '0' ≤ c && c ≤ '9'

/-- The single-quote delimiter character matched by `Scanner::scan`. -/
def quoteChar : Char := Char.ofNat 39

/-- The two characters `Scanner::scan` skips without emitting a token
(the `' ' | '\n' => None` arm). -/
def isWhitespaceChar (c : Char) : Bool :=
  c = ' ' || c = '\n'

/-- The loop of `Scanner::scan_keyword_or_identifier`: maximal munch over
letters.  Returns the name characters (`current` included) and the
unconsumed rest of the input. -/
def scanNameLoop (current : Char) : List Char → List Char × List Char
  | [] => ([current], [])
  | c :: cs =>
    if isLetterChar c then
      let (n, r) := scanNameLoop c cs
      (current :: n, r)
    else ([current], c :: cs)

/-- The keyword table at the end of `Scanner::scan_keyword_or_identifier`. -/
def keywordOrIdentToken (name : String) : Token :=
  if name = "func" then Token.Keyword Keyword.Func
  else if name = "let" then Token.Keyword Keyword.Let
  else Token.Identifier name

/-- Mirrors `Scanner::scan_keyword_or_identifier`.  Returns the token, the
full span of consumed characters (`next` included) and the rest. -/
def scan_keyword_or_identifier (next : Char) (cs : List Char) :
    Token × List Char × List Char :=
  match scanNameLoop next cs with
  | (n, r) => (keywordOrIdentToken (String.mk n), n, r)

/-- The loop of `Scanner::scan_number`: digits, with a single decimal point
permitted while `is_float` is false; a second `.` is not consumed. -/
def scanNumberLoop (current : Char) (isFloat : Bool) :
    List Char → List Char × List Char
  | [] => ([current], [])
  | c :: cs =>
    if isDigitChar c then
      let (n, r) := scanNumberLoop c isFloat cs
      (current :: n, r)
    else if c = '.' then
      if isFloat then ([current], c :: cs)
      else
        let (n, r) := scanNumberLoop c true cs
        (current :: n, r)
    else ([current], c :: cs)

/-- Mirrors `Scanner::scan_number`.  Returns the token, the full consumed
span (`next` included) and the rest. -/
def scan_number (next : Char) (cs : List Char) :
    Token × List Char × List Char :=
  match scanNumberLoop next false cs with
  | (n, r) => (Token.Numeric (String.mk n), n, r)

/-- The loop of `Scanner::scan_string`: `chars.next()` until a closing
quote (after which one further character is consumed, as in the source) or
a newline or end of input.  Returns the literal contents, the consumed
characters (opening quote excluded) and the rest. -/
def scanStringLoop : List Char → List Char × List Char × List Char
  | [] => ([], [], [])
  | c :: cs =>
    if c = quoteChar then
      match cs with
      | [] => ([], [c], [])
      | d :: ds => ([], [c, d], ds)
    else if c = '\n' then ([], [c], cs)
    else
      let (l, con, r) := scanStringLoop cs
      (c :: l, c :: con, r)

/-- Mirrors `Scanner::scan_string`.  The consumed span includes the opening
quote. -/
def scan_string (cs : List Char) : Token × List Char × List Char :=
  match scanStringLoop cs with
  | (l, con, r) => (Token.String (String.mk l), quoteChar :: con, r)

/-- The loop of `Scanner::scan_comment`: `chars.next()` until a newline
(consumed) or end of input.  Returns contents, consumed characters, rest. -/
def scanCommentLoop : List Char → List Char × List Char × List Char
  | [] => ([], [], [])
  | c :: cs =>
    if c = '\n' then ([], [c], cs)
    else
      let (l, con, r) := scanCommentLoop cs
      (c :: l, c :: con, r)

/-- Mirrors `Scanner::scan_comment`: on `//` the rest of the line is the
comment text; a lone `/` becomes `Unknown('/')`. -/
def scan_comment (next : Char) (cs : List Char) :
    Token × List Char × List Char :=
  match cs with
  | c :: cs2 =>
    if c = '/' then
      match scanCommentLoop cs2 with
      | (l, con, r) => (Token.Comment (String.mk l), next :: c :: con, r)
    else (Token.Unknown next, [next], c :: cs2)
  | [] => (Token.Unknown next, [next], [])

/-- One iteration of the `while let Some(next) = chars.next()` loop of
`Scanner::scan`: given the first character `next` and the remaining
characters, returns the emitted token (if any), the full span of
characters consumed this iteration (`next` included) and the rest. -/
def scanStep (next : Char) (cs : List Char) :
    Option Token × List Char × List Char :=
  if isLetterChar next then
    match scan_keyword_or_identifier next cs with
    | (t, con, r) => (some t, con, r)
  else if isDigitChar next then
    match scan_number next cs with
    | (t, con, r) => (some t, con, r)
  else if next = quoteChar then
    match scan_string cs with
    | (t, con, r) => (some t, con, r)
  else if next = '+' then (some (Token.Operator OperatorSymbol.Addition), [next], cs)
  else if next = '-' then (some (Token.Operator OperatorSymbol.Subtraction), [next], cs)
  else if next = '=' then
    match cs with
    | c :: cs2 =>
      if c = '=' then (some (Token.Operator OperatorSymbol.Equality), [next, c], cs2)
      else (some (Token.Operator OperatorSymbol.Assignment), [next], c :: cs2)
    | [] => (some (Token.Operator OperatorSymbol.Assignment), [next], [])
  else if next = '(' then (some (Token.Pair PairSymbol.Parentheses PairType.Open), [next], cs)
  else if next = ')' then (some (Token.Pair PairSymbol.Parentheses PairType.Close), [next], cs)
  else if next = '{' then (some (Token.Pair PairSymbol.CurlyBracket PairType.Open), [next], cs)
  else if next = '}' then (some (Token.Pair PairSymbol.CurlyBracket PairType.Close), [next], cs)
  else if next = '/' then
    match scan_comment next cs with
    | (t, con, r) => (some t, con, r)
  else if next = ' ' ∨ next = '\n' then (none, [next], cs)
  else (some (Token.Unknown next), [next], cs)

/-- The `while` loop of `Scanner::scan`, instrumented with the consumed
span of every iteration and made total with explicit fuel; `none` means
the fuel ran out (proved impossible for fuel ≥ input length). -/
def scanGoF : Nat → List Char → Option (List (Option Token × List Char))
  | _, [] => some []
  | 0, _ :: _ => none
  | fuel + 1, next :: cs =>
    match scanStep next cs with
    | (t, con, r) =>
      match scanGoF fuel r with
      | some l => some ((t, con) :: l)
      | none => none

/-- The span-instrumented result of `Scanner::scan` on a character list. -/
def scanSpans (s : List Char) : List (Option Token × List Char) :=
  (scanGoF s.length s).getD []

/-- Mirrors `Scanner::scan`: the emitted token sequence (`self.output`). -/
def scan (s : List Char) : List Token :=
  (scanSpans s).filterMap Prod.fst

/-- `Scanner::new(input).scan()` on a Rust `String` input. -/
def scanStr (s : String) : List Token :=
  scan s.data

/-- Concatenation of all consumed spans of an instrumented scan. -/
def spanChars (l : List (Option Token × List Char)) : List Char :=
  (l.map Prod.snd).flatten

/-- Concatenation of the consumed spans of entries that emit a token. -/
def tokenSpanChars (l : List (Option Token × List Char)) : List Char :=
  (l.filterMap (fun p => p.1.map (fun _ => p.2))).flatten

-- ===== AST and parser (parser.rs) =====

/-- Mirrors `enum BinaryOperator` in parser.rs. -/
inductive BinaryOperator where
  | Addition
  | Equality
  | Subtraction
deriving DecidableEq

/-- Mirrors `enum Expression` in parser.rs. -/
inductive Expression where
  | Assignment (name : String) (value : Expression)
  | Binary (left : Expression) (right : Expression) (operator : BinaryOperator)
deriving DecidableEq

/-- Mirrors `enum Statement` in parser.rs. -/
inductive Statement where
  | Comment (text : String)
  | Expression (expression : Expression)
  | Variable (name : String) (value : Option Expression)
deriving DecidableEq

/-- Mirrors `enum Declaration` in parser.rs. -/
inductive Declaration where
  | Comment (text : String)
  | Function (name : String) (body : List Statement)
deriving DecidableEq

/-- The closed set of parser failures, one per `panic!` site in parser.rs;
a constructor carries a token exactly when the panic message interpolates
one (`{:?}`). -/
inductive ParseError where
  | unexpectedKeywordTopLevel (t : Token)
  | unexpectedTokenTopLevel (t : Token)
  | expectedIdentifier
  | expectedOpenBrace
  | expectedCloseBrace
deriving DecidableEq

/-- The token, if any, interpolated into the corresponding panic message in
parser.rs (the `{:?}` argument). -/
def ParseError.mentionedToken : ParseError → Option Token
  | ParseError.unexpectedKeywordTopLevel t => some t
  | ParseError.unexpectedTokenTopLevel t => some t
  | _ => none

/-- Mirrors `Parser::parse_comment_contents`: absorb immediately following
`Comment` tokens, joining their texts with newlines onto `initial`. -/
def parse_comment_contents (initial : String) : List Token → String × List Token
  | Token.Comment comment :: rest =>
    parse_comment_contents (initial ++ "\n" ++ comment) rest
  | ts => (initial, ts)

/-- Mirrors `Parser::parse_expression` (a stub in the source: it always
returns `None` and consumes nothing). -/
def parse_expression (tokens : List Token) : Option Expression × List Token :=
  (none, tokens)

/-- Mirrors `Parser::parse_statement`: wraps a parsed expression, if any. -/
def parse_statement (tokens : List Token) : Option Statement × List Token :=
  match parse_expression tokens with
  | (some expression, r) => (some (Statement.Expression expression), r)
  | (none, r) => (none, r)

/-- The `loop` of `Parser::parse_statement_body`: stop consuming at a close
brace; fail at end of input; otherwise parse a statement, `break`-ing
without consuming when none is produced.  Fuel-guarded; `none` means the
fuel ran out. -/
def parse_statement_loop :
    Nat → List Token → Option (Except ParseError (List Statement × List Token))
  | _, Token.Pair PairSymbol.CurlyBracket PairType.Close :: rest =>
    some (Except.ok ([], rest))
  | _, [] => some (Except.error ParseError.expectedCloseBrace)
  | fuel, t :: ts =>
    match parse_statement (t :: ts) with
    | (some s, r) =>
      match fuel with
      | 0 => none
      | f + 1 =>
        match parse_statement_loop f r with
        | some (Except.ok (body, rr)) => some (Except.ok (s :: body, rr))
        | some (Except.error e) => some (Except.error e)
        | none => none
    | (none, _) => some (Except.ok ([], t :: ts))

/-- Mirrors `Parser::parse_statement_body`: expect `{`, then run the
statement loop. -/
def parse_statement_body (fuel : Nat) (ts : List Token) :
    Option (Except ParseError (List Statement × List Token)) :=
  match ts with
  | Token.Pair PairSymbol.CurlyBracket PairType.Open :: rest =>
    parse_statement_loop fuel rest
  | _ => some (Except.error ParseError.expectedOpenBrace)

/-- Mirrors `Parser::parse_function_declaration`: expect an identifier,
then a statement body. -/
def parse_function_declaration (fuel : Nat) (ts : List Token) :
    Option (Except ParseError (Declaration × List Token)) :=
  match ts with
  | Token.Identifier name :: rest =>
    match parse_statement_body fuel rest with
    | some (Except.ok (body, r)) =>
      some (Except.ok (Declaration.Function name body, r))
    | some (Except.error e) => some (Except.error e)
    | none => none
  | _ => some (Except.error ParseError.expectedIdentifier)

/-- The `while let Some(next) = tokens.next()` loop of `Parser::parse`,
with the `self.output` vector made explicit as the accumulator `acc`; a
failure carries the declarations accumulated before the panic.  `none`
means the fuel ran out (proved impossible for fuel > input length). -/
def parse_loop :
    Nat → List Declaration → List Token →
    Option (Except (ParseError × List Declaration) (List Declaration))
  | _, acc, [] => some (Except.ok acc)
  | 0, _, _ :: _ => none
  | fuel + 1, acc, next :: rest =>
    match next with
    | Token.Comment comment =>
      match parse_comment_contents comment rest with
      | (text, r) => parse_loop fuel (acc ++ [Declaration.Comment text]) r
    | Token.Keyword Keyword.Func =>
      match parse_function_declaration (fuel + 1) rest with
      | some (Except.ok (d, r)) => parse_loop fuel (acc ++ [d]) r
      | some (Except.error e) => some (Except.error (e, acc))
      | none => none
    | Token.Keyword k =>
      some (Except.error (ParseError.unexpectedKeywordTopLevel (Token.Keyword k), acc))
    | _ => some (Except.error (ParseError.unexpectedTokenTopLevel next, acc))

/-- Mirrors `Parser::parse` as observed by a caller: a panic aborts the
whole parse, so a failure yields the error alone and no declarations.  The
`none` fallback is unreachable (the fuel suffices; see the totality
theorems). -/
def parse (ts : List Token) : Except ParseError (List Declaration) :=
  match parse_loop (ts.length + 1) [] ts with
  | some (Except.ok ds) => Except.ok ds
  | some (Except.error (e, _)) => Except.error e
  | none => Except.error ParseError.expectedCloseBrace

/-- The newline join of comment texts, as the spec describes the merged
declaration-comment text. -/
def newlineJoin (t : String) (ts : List String) : String :=
  ts.foldl (fun acc c => acc ++ "\n" ++ c) t

deriving instance DecidableEq for Except

-- ===== Scanner lemmas =====

theorem scanNameLoop_append (current : Char) (cs : List Char) :
    (scanNameLoop current cs).1 ++ (scanNameLoop current cs).2 = current :: cs := by
  induction cs generalizing current with
  | nil => simp [scanNameLoop]
  | cons c cs ih =>
    simp only [scanNameLoop]
    by_cases hc : isLetterChar c = true
    · rcases h : scanNameLoop c cs with ⟨n, r⟩
      have ihc := ih c
      rw [h] at ihc
      simp only [hc, if_true, h]
      simpa using ihc
    · simp [hc]

theorem scanNameLoop_rest_length (current : Char) (cs : List Char) :
    (scanNameLoop current cs).2.length ≤ cs.length := by
  induction cs generalizing current with
  | nil => simp [scanNameLoop]
  | cons c cs ih =>
    simp only [scanNameLoop]
    by_cases hc : isLetterChar c = true
    · rcases h : scanNameLoop c cs with ⟨n, r⟩
      have ihc := ih c
      rw [h] at ihc
      simp only [List.length_cons] at ihc
      simp only [hc, if_true, h, List.length_cons]
      simp only [List.length_cons] at *
      omega
    · simp [hc]

theorem scanNumberLoop_append (current : Char) (b : Bool) (cs : List Char) :
    (scanNumberLoop current b cs).1 ++ (scanNumberLoop current b cs).2
      = current :: cs := by
  induction cs generalizing current b with
  | nil => simp [scanNumberLoop]
  | cons c cs ih =>
    simp only [scanNumberLoop]
    by_cases hd : isDigitChar c = true
    · rcases h : scanNumberLoop c b cs with ⟨n, r⟩
      have ihc := ih c b
      rw [h] at ihc
      simp only [hd, if_true, h]
      simpa using ihc
    · by_cases hp : c = '.'
      · subst hp
        cases b with
        | true => simp [hd]
        | false =>
          rcases h : scanNumberLoop '.' true cs with ⟨n, r⟩
          have ihc := ih '.' true
          rw [h] at ihc
          simp only [hd, if_false, if_true, Bool.false_eq_true, h]
          simpa using ihc
      · simp [hd, hp]

theorem scanNumberLoop_rest_length (current : Char) (b : Bool) (cs : List Char) :
    (scanNumberLoop current b cs).2.length ≤ cs.length := by
  induction cs generalizing current b with
  | nil => simp [scanNumberLoop]
  | cons c cs ih =>
    simp only [scanNumberLoop]
    by_cases hd : isDigitChar c = true
    · rcases h : scanNumberLoop c b cs with ⟨n, r⟩
      have ihc := ih c b
      rw [h] at ihc
      simp only at ihc
      simp only [hd, if_true, h, List.length_cons]
      omega
    · by_cases hp : c = '.'
      · subst hp
        cases b with
        | true => simp [hd]
        | false =>
          rcases h : scanNumberLoop '.' true cs with ⟨n, r⟩
          have ihc := ih '.' true
          rw [h] at ihc
          simp only at ihc
          simp only [hd, if_false, if_true, Bool.false_eq_true, h, List.length_cons]
          omega
      · simp [hd, hp]

theorem scanStringLoop_append (cs : List Char) :
    (scanStringLoop cs).2.1 ++ (scanStringLoop cs).2.2 = cs := by
  induction cs with
  | nil => simp [scanStringLoop]
  | cons c cs ih =>
    simp only [scanStringLoop]
    by_cases hq : c = quoteChar
    · cases cs with
      | nil => simp [hq]
      | cons d ds => simp [hq]
    · by_cases hn : c = '\n'
      · subst hn
        simp [hq]
      · rcases h : scanStringLoop cs with ⟨l, con, r⟩
        have ihc := ih
        rw [h] at ihc
        simp only [hq, hn, if_false, h]
        simpa using ihc

theorem scanStringLoop_rest_length (cs : List Char) :
    (scanStringLoop cs).2.2.length ≤ cs.length := by
  induction cs with
  | nil => simp [scanStringLoop]
  | cons c cs ih =>
    simp only [scanStringLoop]
    by_cases hq : c = quoteChar
    · cases cs with
      | nil => simp [hq]
      | cons d ds =>
        simp only [hq, if_true, List.length_cons]
        omega
    · by_cases hn : c = '\n'
      · subst hn
        simp [hq]
      · rcases h : scanStringLoop cs with ⟨l, con, r⟩
        have ihc := ih
        rw [h] at ihc
        simp only at ihc
        simp only [hq, hn, if_false, h, List.length_cons]
        omega

theorem scanCommentLoop_append (cs : List Char) :
    (scanCommentLoop cs).2.1 ++ (scanCommentLoop cs).2.2 = cs := by
  induction cs with
  | nil => simp [scanCommentLoop]
  | cons c cs ih =>
    simp only [scanCommentLoop]
    by_cases hn : c = '\n'
    · subst hn
      simp
    · rcases h : scanCommentLoop cs with ⟨l, con, r⟩
      have ihc := ih
      rw [h] at ihc
      simp only [hn, if_false, h]
      simpa using ihc

theorem scanCommentLoop_rest_length (cs : List Char) :
    (scanCommentLoop cs).2.2.length ≤ cs.length := by
  induction cs with
  | nil => simp [scanCommentLoop]
  | cons c cs ih =>
    simp only [scanCommentLoop]
    by_cases hn : c = '\n'
    · subst hn
      simp
    · rcases h : scanCommentLoop cs with ⟨l, con, r⟩
      have ihc := ih
      rw [h] at ihc
      simp only at ihc
      simp only [hn, if_false, h, List.length_cons]
      omega


set_option maxHeartbeats 1000000 in
theorem scanStep_spec (next : Char) (cs : List Char) :
    (scanStep next cs).2.1 ++ (scanStep next cs).2.2 = next :: cs ∧
    (scanStep next cs).2.2.length ≤ cs.length ∧
    ((scanStep next cs).1 = none →
      scanStep next cs = (none, [next], cs) ∧ (next = ' ' ∨ next = '\n')) := by
  unfold scanStep
  by_cases h1 : isLetterChar next = true
  · rw [if_pos h1]
    rcases h : scanNameLoop next cs with ⟨n, r⟩
    have ha := scanNameLoop_append next cs
    have hl := scanNameLoop_rest_length next cs
    rw [h] at ha hl
    simp only at ha hl
    simp [scan_keyword_or_identifier, h, ha, hl]
  · rw [if_neg h1]
    by_cases h2 : isDigitChar next = true
    · rw [if_pos h2]
      rcases h : scanNumberLoop next false cs with ⟨n, r⟩
      have ha := scanNumberLoop_append next false cs
      have hl := scanNumberLoop_rest_length next false cs
      rw [h] at ha hl
      simp only at ha hl
      simp [scan_number, h, ha, hl]
    · rw [if_neg h2]
      by_cases h3 : next = quoteChar
      · rw [if_pos h3]
        rcases h : scanStringLoop cs with ⟨l, con, r⟩
        have ha := scanStringLoop_append cs
        have hl := scanStringLoop_rest_length cs
        rw [h] at ha hl
        simp only at ha hl
        subst h3
        simp [scan_string, h, ha, hl]
      · rw [if_neg h3]
        by_cases h4 : next = '+'
        · rw [if_pos h4]
          simp
        · rw [if_neg h4]
          by_cases h5 : next = '-'
          · rw [if_pos h5]
            simp
          · rw [if_neg h5]
            by_cases h6 : next = '='
            · rw [if_pos h6]
              cases cs with
              | nil => simp
              | cons c cs2 =>
                by_cases hc : c = '='
                · simp [hc]
                · simp [hc]
            · rw [if_neg h6]
              by_cases h7 : next = '('
              · rw [if_pos h7]
                simp
              · rw [if_neg h7]
                by_cases h8 : next = ')'
                · rw [if_pos h8]
                  simp
                · rw [if_neg h8]
                  by_cases h9 : next = '{'
                  · rw [if_pos h9]
                    simp
                  · rw [if_neg h9]
                    by_cases h10 : next = '}'
                    · rw [if_pos h10]
                      simp
                    · rw [if_neg h10]
                      by_cases h11 : next = '/'
                      · rw [if_pos h11]
                        cases cs with
                        | nil => simp [scan_comment]
                        | cons c cs2 =>
                          by_cases hc : c = '/'
                          · rcases h : scanCommentLoop cs2 with ⟨l, con, r⟩
                            have ha := scanCommentLoop_append cs2
                            have hl := scanCommentLoop_rest_length cs2
                            rw [h] at ha hl
                            simp only at ha hl
                            simp [scan_comment, hc, h, ha]
                            omega
                          · simp [scan_comment, hc]
                      · rw [if_neg h11]
                        by_cases h12 : next = ' ' ∨ next = '\n'
                        · rw [if_pos h12]
                          simp [h12]
                        · rw [if_neg h12]
                          simp

theorem scanStep_append (next : Char) (cs : List Char) :
    (scanStep next cs).2.1 ++ (scanStep next cs).2.2 = next :: cs :=
  (scanStep_spec next cs).1

theorem scanStep_rest_length (next : Char) (cs : List Char) :
    (scanStep next cs).2.2.length ≤ cs.length :=
  (scanStep_spec next cs).2.1

theorem scanStep_none (next : Char) (cs : List Char)
    (h : (scanStep next cs).1 = none) :
    scanStep next cs = (none, [next], cs) ∧ (next = ' ' ∨ next = '\n') :=
  (scanStep_spec next cs).2.2 h

theorem scanGoF_total (fuel : Nat) (s : List Char) (h : s.length ≤ fuel) :
    ∃ l, scanGoF fuel s = some l := by
  induction fuel generalizing s with
  | zero =>
    cases s with
    | nil => exact ⟨[], rfl⟩
    | cons c cs => simp at h
  | succ fuel ih =>
    cases s with
    | nil => exact ⟨[], rfl⟩
    | cons c cs =>
      rcases hs : scanStep c cs with ⟨t, con, r⟩
      have hr := scanStep_rest_length c cs
      rw [hs] at hr
      simp only at hr
      simp only [List.length_cons] at h
      obtain ⟨l, hl⟩ := ih r (by omega)
      exact ⟨(t, con) :: l, by simp [scanGoF, hs, hl]⟩

theorem scanGoF_join (fuel : Nat) (s : List Char)
    (l : List (Option Token × List Char)) (h : scanGoF fuel s = some l) :
    spanChars l = s := by
  induction fuel generalizing s l with
  | zero =>
    cases s with
    | nil =>
      simp only [scanGoF, Option.some.injEq] at h
      subst h
      simp [spanChars]
    | cons c cs => simp [scanGoF] at h
  | succ fuel ih =>
    cases s with
    | nil =>
      simp only [scanGoF, Option.some.injEq] at h
      subst h
      simp [spanChars]
    | cons c cs =>
      rcases hs : scanStep c cs with ⟨t, con, r⟩
      have ha := scanStep_append c cs
      rw [hs] at ha
      simp only at ha
      simp only [scanGoF, hs] at h
      rcases hg : scanGoF fuel r with _ | l2
      · rw [hg] at h
        simp at h
      · rw [hg] at h
        simp only [Option.some.injEq] at h
        subst h
        have := ih r l2 hg
        simp [spanChars] at this ⊢
        rw [this]
        exact ha

theorem scanGoF_gaps (fuel : Nat) (s : List Char)
    (l : List (Option Token × List Char)) (h : scanGoF fuel s = some l) :
    ∀ p ∈ l, p.1 = none → p.2 = [' '] ∨ p.2 = ['\n'] := by
  induction fuel generalizing s l with
  | zero =>
    cases s with
    | nil =>
      simp only [scanGoF, Option.some.injEq] at h
      subst h
      simp
    | cons c cs => simp [scanGoF] at h
  | succ fuel ih =>
    cases s with
    | nil =>
      simp only [scanGoF, Option.some.injEq] at h
      subst h
      simp
    | cons c cs =>
      rcases hs : scanStep c cs with ⟨t, con, r⟩
      simp only [scanGoF, hs] at h
      rcases hg : scanGoF fuel r with _ | l2
      · rw [hg] at h
        simp at h
      · rw [hg] at h
        simp only [Option.some.injEq] at h
        subst h
        intro p hp hnone
        simp only [List.mem_cons] at hp
        rcases hp with rfl | hp
        · have hnone2 : (scanStep c cs).1 = none := by
            rw [hs]
            exact hnone
          obtain ⟨heq, hws⟩ := scanStep_none c cs hnone2
          rw [hs] at heq
          simp only [Prod.mk.injEq] at heq
          obtain ⟨-, hcon, -⟩ := heq
          rcases hws with hws | hws
          · left
            simp [hcon, hws]
          · right
            simp [hcon, hws]
        · exact ih r l2 hg p hp hnone

theorem scanGoF_filter (fuel : Nat) (s : List Char)
    (l : List (Option Token × List Char)) (h : scanGoF fuel s = some l) :
    (tokenSpanChars l).filter (fun c => !isWhitespaceChar c)
      = s.filter (fun c => !isWhitespaceChar c) := by
  induction fuel generalizing s l with
  | zero =>
    cases s with
    | nil =>
      simp only [scanGoF, Option.some.injEq] at h
      subst h
      simp [tokenSpanChars]
    | cons c cs => simp [scanGoF] at h
  | succ fuel ih =>
    cases s with
    | nil =>
      simp only [scanGoF, Option.some.injEq] at h
      subst h
      simp [tokenSpanChars]
    | cons c cs =>
      rcases hs : scanStep c cs with ⟨t, con, r⟩
      have ha := scanStep_append c cs
      rw [hs] at ha
      simp only at ha
      simp only [scanGoF, hs] at h
      rcases hg : scanGoF fuel r with _ | l2
      · rw [hg] at h
        simp at h
      · rw [hg] at h
        simp only [Option.some.injEq] at h
        subst h
        have ihr := ih r l2 hg
        cases t with
        | some tok =>
          have : tokenSpanChars ((some tok, con) :: l2) = con ++ tokenSpanChars l2 := by
            simp [tokenSpanChars]
          rw [this, ← ha, List.filter_append, List.filter_append, ihr]
        | none =>
          have hnone2 : (scanStep c cs).1 = none := by
            rw [hs]
          obtain ⟨heq, hws⟩ := scanStep_none c cs hnone2
          rw [hs] at heq
          simp only [Prod.mk.injEq] at heq
          obtain ⟨-, hcon, hr⟩ := heq
          have hws2 : isWhitespaceChar c = true := by
            rcases hws with hws | hws <;> simp [isWhitespaceChar, hws]
          have : tokenSpanChars ((none, con) :: l2) = tokenSpanChars l2 := by
            simp [tokenSpanChars]
          rw [this]
          rw [hr] at ihr
          rw [ihr]
          simp [hws2]

theorem scanStep_space (cs : List Char) : scanStep ' ' cs = (none, [' '], cs) := rfl

theorem scanStep_newline (cs : List Char) :
    scanStep '\n' cs = (none, ['\n'], cs) := rfl

theorem scan_cons_space (cs : List Char) : scan (' ' :: cs) = scan cs := by
  obtain ⟨l, hl⟩ := scanGoF_total cs.length cs le_rfl
  unfold scan scanSpans
  simp [scanGoF, scanStep_space, hl]

theorem scan_cons_newline (cs : List Char) : scan ('\n' :: cs) = scan cs := by
  obtain ⟨l, hl⟩ := scanGoF_total cs.length cs le_rfl
  unfold scan scanSpans
  simp [scanGoF, scanStep_newline, hl]

theorem scanStep_unknown (c : Char) (cs : List Char)
    (h1 : ¬isLetterChar c = true) (h2 : ¬isDigitChar c = true)
    (h3 : ¬c = quoteChar) (h4 : ¬c = '+') (h5 : ¬c = '-') (h6 : ¬c = '=')
    (h7 : ¬c = '(') (h8 : ¬c = ')') (h9 : ¬c = '{') (h10 : ¬c = '}')
    (h11 : ¬c = '/') (h12 : ¬(c = ' ' ∨ c = '\n')) :
    scanStep c cs = (some (Token.Unknown c), [c], cs) := by
  unfold scanStep
  rw [if_neg h1, if_neg h2, if_neg h3, if_neg h4, if_neg h5, if_neg h6,
    if_neg h7, if_neg h8, if_neg h9, if_neg h10, if_neg h11, if_neg h12]

theorem scan_cons_unknown (c : Char) (cs : List Char)
    (h1 : ¬isLetterChar c = true) (h2 : ¬isDigitChar c = true)
    (h3 : ¬c = quoteChar) (h4 : ¬c = '+') (h5 : ¬c = '-') (h6 : ¬c = '=')
    (h7 : ¬c = '(') (h8 : ¬c = ')') (h9 : ¬c = '{') (h10 : ¬c = '}')
    (h11 : ¬c = '/') (h12 : ¬(c = ' ' ∨ c = '\n')) :
    scan (c :: cs) = Token.Unknown c :: scan cs := by
  obtain ⟨l, hl⟩ := scanGoF_total cs.length cs le_rfl
  unfold scan scanSpans
  simp [scanGoF,
    scanStep_unknown c cs h1 h2 h3 h4 h5 h6 h7 h8 h9 h10 h11 h12, hl]

theorem scanSpans_join (s : List Char) : spanChars (scanSpans s) = s := by
  obtain ⟨l, hl⟩ := scanGoF_total s.length s le_rfl
  unfold scanSpans
  rw [hl]
  exact scanGoF_join s.length s l hl

theorem scanSpans_gaps (s : List Char) :
    ∀ p ∈ scanSpans s, p.1 = none → p.2 = [' '] ∨ p.2 = ['\n'] := by
  obtain ⟨l, hl⟩ := scanGoF_total s.length s le_rfl
  unfold scanSpans
  rw [hl]
  exact scanGoF_gaps s.length s l hl

theorem scanSpans_filter (s : List Char) :
    (tokenSpanChars (scanSpans s)).filter (fun c => !isWhitespaceChar c)
      = s.filter (fun c => !isWhitespaceChar c) := by
  obtain ⟨l, hl⟩ := scanGoF_total s.length s le_rfl
  unfold scanSpans
  rw [hl]
  exact scanGoF_filter s.length s l hl

-- ===== Parser lemmas =====

theorem parse_comment_contents_spec (ts : List String) (initial : String)
    (rest : List Token) (h : ∀ s, rest.head? ≠ some (Token.Comment s)) :
    parse_comment_contents initial (ts.map Token.Comment ++ rest)
      = (newlineJoin initial ts, rest) := by
  induction ts generalizing initial with
  | nil =>
    simp only [List.map_nil, List.nil_append]
    cases rest with
    | nil => simp [parse_comment_contents, newlineJoin]
    | cons t r =>
      cases t with
      | Comment s => exact absurd rfl (h s)
      | Identifier s => simp [parse_comment_contents, newlineJoin]
      | Keyword k => simp [parse_comment_contents, newlineJoin]
      | Numeric s => simp [parse_comment_contents, newlineJoin]
      | Operator o => simp [parse_comment_contents, newlineJoin]
      | Pair a b => simp [parse_comment_contents, newlineJoin]
      | String s => simp [parse_comment_contents, newlineJoin]
      | Unknown c => simp [parse_comment_contents, newlineJoin]
  | cons c ts ih =>
    simp only [List.map_cons, List.cons_append, parse_comment_contents,
      List.append_eq]
    rw [ih (initial ++ "\n" ++ c)]
    simp [newlineJoin]

theorem parse_comment_contents_rest_length (ts : List Token) (initial : String) :
    (parse_comment_contents initial ts).2.length ≤ ts.length := by
  induction ts generalizing initial with
  | nil => simp [parse_comment_contents]
  | cons t ts ih =>
    cases t with
    | Comment c =>
      simp only [parse_comment_contents]
      have := ih (initial ++ "\n" ++ c)
      simp only [List.length_cons]
      omega
    | Identifier s => simp [parse_comment_contents]
    | Keyword k => simp [parse_comment_contents]
    | Numeric s => simp [parse_comment_contents]
    | Operator o => simp [parse_comment_contents]
    | Pair a b => simp [parse_comment_contents]
    | String s => simp [parse_comment_contents]
    | Unknown c => simp [parse_comment_contents]

theorem parse_statement_loop_total (fuel : Nat) (ts : List Token) :
    parse_statement_loop fuel ts ≠ none := by
  cases ts with
  | nil => simp [parse_statement_loop]
  | cons t ts =>
    cases t with
    | Pair sym side =>
      cases sym <;> cases side <;>
        simp [parse_statement_loop, parse_statement, parse_expression]
    | Comment s => simp [parse_statement_loop, parse_statement, parse_expression]
    | Identifier s => simp [parse_statement_loop, parse_statement, parse_expression]
    | Keyword k => simp [parse_statement_loop, parse_statement, parse_expression]
    | Numeric s => simp [parse_statement_loop, parse_statement, parse_expression]
    | Operator o => simp [parse_statement_loop, parse_statement, parse_expression]
    | String s => simp [parse_statement_loop, parse_statement, parse_expression]
    | Unknown c => simp [parse_statement_loop, parse_statement, parse_expression]

theorem parse_statement_loop_ok (fuel : Nat) (ts : List Token)
    (b : List Statement) (r : List Token)
    (h : parse_statement_loop fuel ts = some (Except.ok (b, r))) :
    b = [] ∧ r.length ≤ ts.length := by
  cases ts with
  | nil => simp [parse_statement_loop] at h
  | cons t ts =>
    cases t with
    | Pair sym side =>
      cases sym <;> cases side <;>
        simp_all [parse_statement_loop, parse_statement, parse_expression]
    | Comment s =>
      simp_all [parse_statement_loop, parse_statement, parse_expression]
    | Identifier s =>
      simp_all [parse_statement_loop, parse_statement, parse_expression]
    | Keyword k =>
      simp_all [parse_statement_loop, parse_statement, parse_expression]
    | Numeric s =>
      simp_all [parse_statement_loop, parse_statement, parse_expression]
    | Operator o =>
      simp_all [parse_statement_loop, parse_statement, parse_expression]
    | String s =>
      simp_all [parse_statement_loop, parse_statement, parse_expression]
    | Unknown c =>
      simp_all [parse_statement_loop, parse_statement, parse_expression]

theorem parse_statement_body_total (fuel : Nat) (ts : List Token) :
    parse_statement_body fuel ts ≠ none := by
  cases ts with
  | nil => simp [parse_statement_body]
  | cons t ts =>
    cases t with
    | Pair sym side =>
      cases sym <;> cases side <;> simp [parse_statement_body] <;>
        exact parse_statement_loop_total fuel ts
    | Comment s => simp [parse_statement_body]
    | Identifier s => simp [parse_statement_body]
    | Keyword k => simp [parse_statement_body]
    | Numeric s => simp [parse_statement_body]
    | Operator o => simp [parse_statement_body]
    | String s => simp [parse_statement_body]
    | Unknown c => simp [parse_statement_body]

theorem parse_statement_body_ok (fuel : Nat) (ts : List Token)
    (b : List Statement) (r : List Token)
    (h : parse_statement_body fuel ts = some (Except.ok (b, r))) :
    b = [] ∧ r.length + 1 ≤ ts.length := by
  cases ts with
  | nil => simp [parse_statement_body] at h
  | cons t ts =>
    cases t with
    | Pair sym side =>
      cases sym with
      | CurlyBracket =>
        cases side with
        | Open =>
          simp only [parse_statement_body] at h
          obtain ⟨hb, hr⟩ := parse_statement_loop_ok fuel ts b r h
          subst hb
          refine ⟨rfl, ?_⟩
          simp only [List.length_cons]
          omega
        | Close => simp [parse_statement_body] at h
      | Parentheses => cases side <;> simp [parse_statement_body] at h
    | Comment s => simp [parse_statement_body] at h
    | Identifier s => simp [parse_statement_body] at h
    | Keyword k => simp [parse_statement_body] at h
    | Numeric s => simp [parse_statement_body] at h
    | Operator o => simp [parse_statement_body] at h
    | String s => simp [parse_statement_body] at h
    | Unknown c => simp [parse_statement_body] at h

theorem parse_function_declaration_noident (fuel : Nat) (ts : List Token)
    (h : ∀ s, ts.head? ≠ some (Token.Identifier s)) :
    parse_function_declaration fuel ts
      = some (Except.error ParseError.expectedIdentifier) := by
  cases ts with
  | nil => simp [parse_function_declaration]
  | cons t ts =>
    cases t with
    | Identifier s => exact absurd rfl (h s)
    | Comment s => simp [parse_function_declaration]
    | Keyword k => simp [parse_function_declaration]
    | Numeric s => simp [parse_function_declaration]
    | Operator o => simp [parse_function_declaration]
    | Pair a b => simp [parse_function_declaration]
    | String s => simp [parse_function_declaration]
    | Unknown c => simp [parse_function_declaration]

theorem parse_function_declaration_total (fuel : Nat) (ts : List Token) :
    parse_function_declaration fuel ts ≠ none := by
  cases ts with
  | nil => simp [parse_function_declaration]
  | cons t ts =>
    cases t with
    | Identifier name =>
      cases hb : parse_statement_body fuel ts with
      | none => exact absurd hb (parse_statement_body_total fuel ts)
      | some res =>
        cases res with
        | ok pr =>
          rcases pr with ⟨body, r⟩
          simp [parse_function_declaration, hb]
        | error e => simp [parse_function_declaration, hb]
    | Comment s => simp [parse_function_declaration]
    | Keyword k => simp [parse_function_declaration]
    | Numeric s => simp [parse_function_declaration]
    | Operator o => simp [parse_function_declaration]
    | Pair a b => simp [parse_function_declaration]
    | String s => simp [parse_function_declaration]
    | Unknown c => simp [parse_function_declaration]

theorem parse_function_declaration_ok (fuel : Nat) (ts : List Token)
    (d : Declaration) (r : List Token)
    (h : parse_function_declaration fuel ts = some (Except.ok (d, r))) :
    (∃ name, d = Declaration.Function name []) ∧ r.length + 2 ≤ ts.length := by
  cases ts with
  | nil => simp [parse_function_declaration] at h
  | cons t ts =>
    cases t with
    | Identifier name =>
      simp only [parse_function_declaration] at h
      cases hb : parse_statement_body fuel ts with
      | none =>
        rw [hb] at h
        simp at h
      | some res =>
        rw [hb] at h
        cases res with
        | error e => simp at h
        | ok pr =>
          rcases pr with ⟨body, rr⟩
          simp only [Option.some.injEq, Except.ok.injEq, Prod.mk.injEq] at h
          obtain ⟨hd, hr⟩ := h
          obtain ⟨hbody, hlen⟩ := parse_statement_body_ok fuel ts body rr hb
          subst hbody
          subst hr
          refine ⟨⟨name, hd.symm⟩, ?_⟩
          simp only [List.length_cons]
          omega
    | Comment s => simp [parse_function_declaration] at h
    | Keyword k => simp [parse_function_declaration] at h
    | Numeric s => simp [parse_function_declaration] at h
    | Operator o => simp [parse_function_declaration] at h
    | Pair a b => simp [parse_function_declaration] at h
    | String s => simp [parse_function_declaration] at h
    | Unknown c => simp [parse_function_declaration] at h

theorem parse_loop_total (fuel : Nat) (acc : List Declaration) (ts : List Token)
    (h : ts.length < fuel) : parse_loop fuel acc ts ≠ none := by
  induction fuel generalizing acc ts with
  | zero => simp at h
  | succ fuel ih =>
    cases ts with
    | nil => simp [parse_loop]
    | cons next rest =>
      simp only [List.length_cons] at h
      cases next with
      | Comment comment =>
        rcases hc : parse_comment_contents comment rest with ⟨text, r⟩
        have hl := parse_comment_contents_rest_length rest comment
        rw [hc] at hl
        simp only at hl
        simp only [parse_loop, hc]
        exact ih (acc ++ [Declaration.Comment text]) r (by omega)
      | Keyword k =>
        cases k with
        | Func =>
          cases hf : parse_function_declaration (fuel + 1) rest with
          | none => exact absurd hf (parse_function_declaration_total _ _)
          | some res =>
            cases res with
            | error e => simp [parse_loop, hf]
            | ok pr =>
              rcases pr with ⟨d, r⟩
              obtain ⟨-, hlen⟩ := parse_function_declaration_ok _ _ _ _ hf
              simp only [parse_loop, hf]
              exact ih (acc ++ [d]) r (by omega)
        | Let => simp [parse_loop]
      | Identifier s => simp [parse_loop]
      | Numeric s => simp [parse_loop]
      | Operator o => simp [parse_loop]
      | Pair a b => simp [parse_loop]
      | String s => simp [parse_loop]
      | Unknown c => simp [parse_loop]

theorem parse_loop_functions (fuel : Nat) (acc : List Declaration)
    (ts : List Token) (ds : List Declaration)
    (h : parse_loop fuel acc ts = some (Except.ok ds))
    (hacc : ∀ name body, Declaration.Function name body ∈ acc → body = []) :
    ∀ name body, Declaration.Function name body ∈ ds → body = [] := by
  induction fuel generalizing acc ts ds with
  | zero =>
    cases ts with
    | nil =>
      simp only [parse_loop, Option.some.injEq, Except.ok.injEq] at h
      subst h
      exact hacc
    | cons next rest => simp [parse_loop] at h
  | succ fuel ih =>
    cases ts with
    | nil =>
      simp only [parse_loop, Option.some.injEq, Except.ok.injEq] at h
      subst h
      exact hacc
    | cons next rest =>
      cases next with
      | Comment comment =>
        rcases hc : parse_comment_contents comment rest with ⟨text, r⟩
        simp only [parse_loop, hc] at h
        refine ih (acc ++ [Declaration.Comment text]) r ds h ?_
        intro name body hm
        simp only [List.mem_append, List.mem_singleton] at hm
        rcases hm with hm | hm
        · exact hacc name body hm
        · simp at hm
      | Keyword k =>
        cases k with
        | Func =>
          cases hf : parse_function_declaration (fuel + 1) rest with
          | none =>
            rw [parse_loop, hf] at h
            simp at h
          | some res =>
            cases res with
            | error e =>
              simp [parse_loop, hf] at h
            | ok pr =>
              rcases pr with ⟨d, r⟩
              obtain ⟨⟨name0, hd⟩, -⟩ := parse_function_declaration_ok _ _ _ _ hf
              subst hd
              simp only [parse_loop, hf] at h
              refine ih (acc ++ [Declaration.Function name0 []]) r ds h ?_
              intro name body hm
              simp only [List.mem_append, List.mem_singleton] at hm
              rcases hm with hm | hm
              · exact hacc name body hm
              · simp only [Declaration.Function.injEq] at hm
                exact hm.2
        | Let => simp [parse_loop] at h
      | Identifier s => simp [parse_loop] at h
      | Numeric s => simp [parse_loop] at h
      | Operator o => simp [parse_loop] at h
      | Pair a b => simp [parse_loop] at h
      | String s => simp [parse_loop] at h
      | Unknown c => simp [parse_loop] at h

theorem parse_loop_comment_merge (fuel : Nat) (acc : List Declaration)
    (t : String) (ts : List String) (rest : List Token)
    (h : ∀ s, rest.head? ≠ some (Token.Comment s)) :
    parse_loop (fuel + 1) acc (Token.Comment t :: ts.map Token.Comment ++ rest)
      = parse_loop fuel (acc ++ [Declaration.Comment (newlineJoin t ts)]) rest := by
  simp only [parse_loop, List.append_eq, parse_comment_contents_spec ts t rest h]

theorem parse_loop_func_noident (fuel : Nat) (acc : List Declaration)
    (rest : List Token) (h : ∀ s, rest.head? ≠ some (Token.Identifier s)) :
    parse_loop (fuel + 1) acc (Token.Keyword Keyword.Func :: rest)
      = some (Except.error (ParseError.expectedIdentifier, acc)) := by
  simp only [parse_loop, parse_function_declaration_noident (fuel + 1) rest h]

-- ===== Claim theorems =====

/-- C1 (counterexample): on the token sequence scanned from
`"func main() \x7b \x7d"`, `parse` does not succeed with
`[Function "main" []]` as the spec claims; it fails with the
`Expected {` syntax error, because `parse_function_declaration` expects an
open curly bracket directly after the function name and never consumes the
parenthesis tokens. -/
theorem func_main_parse_counterexample :
    parse (scanStr "func main() \x7b \x7d") = Except.error ParseError.expectedOpenBrace ∧
    parse (scanStr "func main() \x7b \x7d") ≠ Except.ok [Declaration.Function "main" []] := by
  constructor
  · decide
  · decide

/-- C1 (amended): `"func main() \x7b \x7d"` scans to exactly the claimed token
sequence, but `parse` of that sequence fails with the `Expected {` error at
the parenthesis token; `parse` returns `[Function "main" []]` only on the
sequence without the two parenthesis tokens. -/
theorem func_main_scan_parse_amended :
    scanStr "func main() \x7b \x7d" =
      [Token.Keyword Keyword.Func, Token.Identifier "main",
       Token.Pair PairSymbol.Parentheses PairType.Open,
       Token.Pair PairSymbol.Parentheses PairType.Close,
       Token.Pair PairSymbol.CurlyBracket PairType.Open,
       Token.Pair PairSymbol.CurlyBracket PairType.Close] ∧
    parse [Token.Keyword Keyword.Func, Token.Identifier "main",
       Token.Pair PairSymbol.Parentheses PairType.Open,
       Token.Pair PairSymbol.Parentheses PairType.Close,
       Token.Pair PairSymbol.CurlyBracket PairType.Open,
       Token.Pair PairSymbol.CurlyBracket PairType.Close]
      = Except.error ParseError.expectedOpenBrace ∧
    parse [Token.Keyword Keyword.Func, Token.Identifier "main",
       Token.Pair PairSymbol.CurlyBracket PairType.Open,
       Token.Pair PairSymbol.CurlyBracket PairType.Close]
      = Except.ok [Declaration.Function "main" []] := by
  refine ⟨by decide, by decide, by decide⟩

/-- C2: the scanner is total — for any input the fuelled scan loop
succeeds whenever the fuel covers the input length (so `scan` never
fails), and any character matched by no lexical rule is emitted as an
`Unknown` token rather than an error. -/
theorem scan_total_unknown_fallback :
    (∀ (s : List Char) (fuel : Nat), s.length ≤ fuel →
      ∃ l, scanGoF fuel s = some l) ∧
    (∀ (c : Char) (cs : List Char),
      ¬isLetterChar c = true → ¬isDigitChar c = true → ¬c = quoteChar →
      ¬c = '+' → ¬c = '-' → ¬c = '=' → ¬c = '(' → ¬c = ')' → ¬c = '{' →
      ¬c = '}' → ¬c = '/' → ¬(c = ' ' ∨ c = '\n') →
      scan (c :: cs) = Token.Unknown c :: scan cs) := by
  constructor
  · intro s fuel h
    exact scanGoF_total fuel s h
  · intro c cs h1 h2 h3 h4 h5 h6 h7 h8 h9 h10 h11 h12
    exact scan_cons_unknown c cs h1 h2 h3 h4 h5 h6 h7 h8 h9 h10 h11 h12

/-- C2 (witness): the totality and the `Unknown` fallback evaluated at
concrete inputs. -/
theorem scan_total_unknown_fallback_witness :
    (∃ l, scanGoF 3 ['#', 'a'] = some l) ∧
    scan ['#'] = Token.Unknown '#' :: scan [] :=
  ⟨scan_total_unknown_fallback.1 ['#', 'a'] 3 (by decide),
   scan_total_unknown_fallback.2 '#' [] (by decide) (by decide) (by decide)
     (by decide) (by decide) (by decide) (by decide) (by decide) (by decide)
     (by decide) (by decide) (by decide)⟩

/-- C3: lexical coverage — the consumed spans of one scan concatenate back
to the whole input (so spans are disjoint, cover the input in
left-to-right emission order, and every non-whitespace character lies in
exactly one span), the spans that emit no token are single whitespace
characters, and the concatenation of the token spans reconstructs the
non-whitespace characters of the input in order. -/
theorem scan_coverage (s : List Char) :
    spanChars (scanSpans s) = s ∧
    (∀ p ∈ scanSpans s, p.1 = none → p.2 = [' '] ∨ p.2 = ['\n']) ∧
    (tokenSpanChars (scanSpans s)).filter (fun c => !isWhitespaceChar c)
      = s.filter (fun c => !isWhitespaceChar c) :=
  ⟨scanSpans_join s, scanSpans_gaps s, scanSpans_filter s⟩

/-- C3 (witness): coverage evaluated on the concrete input `" x"`. -/
theorem scan_coverage_witness :
    spanChars (scanSpans [' ', 'x']) = [' ', 'x'] ∧
    (((none : Option Token), [' ']).2 = [' '] ∨
      ((none : Option Token), [' ']).2 = ['\n']) ∧
    (tokenSpanChars (scanSpans [' ', 'x'])).filter (fun c => !isWhitespaceChar c)
      = [' ', 'x'].filter (fun c => !isWhitespaceChar c) :=
  ⟨(scan_coverage [' ', 'x']).1,
   (scan_coverage [' ', 'x']).2.1 (none, [' ']) (by decide) rfl,
   (scan_coverage [' ', 'x']).2.2⟩

/-- C4 (counterexample): scanning the one-character input consisting of a
single tab does not yield the empty token sequence — the scanner only
skips spaces and newlines, so the tab becomes `Unknown('\t')`. -/
theorem scan_tab_counterexample :
    scanStr "\t" = [Token.Unknown '\t'] ∧ scanStr "\t" ≠ [] := by
  constructor
  · decide
  · decide

/-- C4 (amended): the scanner consumes space and newline characters as
whitespace, emitting no token for them; a tab is not whitespace — it is
emitted as an `Unknown` token, so scanning a single tab yields
`[Unknown('\t')]`. -/
theorem scan_whitespace_amended :
    (∀ cs, scan (' ' :: cs) = scan cs) ∧
    (∀ cs, scan ('\n' :: cs) = scan cs) ∧
    scanStr "\t" = [Token.Unknown '\t'] :=
  ⟨scan_cons_space, scan_cons_newline, by decide⟩

/-- C5: `"1.2.3"` scans to `[Numeric "1.2", Unknown '.', Numeric "3"]`,
and in general once a numeric lexeme already holds a decimal point a
second `.` is not consumed: the numeric loop stops, leaving the dot in the
input. -/
theorem scan_numeric_single_decimal :
    scanStr "1.2.3" =
      [Token.Numeric "1.2", Token.Unknown '.', Token.Numeric "3"] ∧
    ∀ (current : Char) (rest : List Char),
      scanNumberLoop current true ('.' :: rest) = ([current], '.' :: rest) :=
  ⟨by decide, fun current rest => rfl⟩

/-- C6: a maximal run of adjacent `Comment` tokens at the top level is
merged by the parser into a single `Declaration.Comment` whose text is the
newline join of the comments' texts, after which parsing continues on the
remaining tokens; in particular `[Comment "a", Comment "b"]` parses to the
single declaration `Comment "a\nb"`. -/
theorem parse_comment_merge :
    (∀ (fuel : Nat) (acc : List Declaration) (t : String) (ts : List String)
      (rest : List Token), (∀ s, rest.head? ≠ some (Token.Comment s)) →
      parse_loop (fuel + 1) acc (Token.Comment t :: ts.map Token.Comment ++ rest)
        = parse_loop fuel (acc ++ [Declaration.Comment (newlineJoin t ts)]) rest) ∧
    parse [Token.Comment "a", Token.Comment "b"]
      = Except.ok [Declaration.Comment "a\nb"] :=
  ⟨parse_loop_comment_merge, by decide⟩

/-- C6 (witness): the merge step applied at a concrete comment run. -/
theorem parse_comment_merge_witness :
    parse_loop 1 [] [Token.Comment "a"]
      = parse_loop 0 [Declaration.Comment (newlineJoin "a" [])] [] ∧
    parse [Token.Comment "a", Token.Comment "b"]
      = Except.ok [Declaration.Comment "a\nb"] :=
  ⟨by simpa using parse_comment_merge.1 0 [] "a" [] [] (by simp),
   parse_comment_merge.2⟩

/-- C7: a failed parse yields no declarations — whenever the parse loop
stops with a syntax error, even with declarations already accumulated,
`parse` surfaces only the error and returns no (partial) declaration
sequence. -/
theorem parse_error_no_partial (ts : List Token) (e : ParseError)
    (ds : List Declaration)
    (h : parse_loop (ts.length + 1) [] ts = some (Except.error (e, ds))) :
    parse ts = Except.error e ∧ ∀ ds2, parse ts ≠ Except.ok ds2 := by
  constructor
  · simp [parse, h]
  · intro ds2
    simp [parse, h]

/-- C7 (witness): on `[Comment "c", Numeric "1"]` the loop has already
built the declaration `Comment "c"` when it hits the error, yet `parse`
returns only the error and not the partial list. -/
theorem parse_error_no_partial_witness :
    parse [Token.Comment "c", Token.Numeric "1"]
      = Except.error (ParseError.unexpectedTokenTopLevel (Token.Numeric "1")) ∧
    parse [Token.Comment "c", Token.Numeric "1"]
      ≠ Except.ok [Declaration.Comment "c"] := by
  have h := parse_error_no_partial [Token.Comment "c", Token.Numeric "1"]
    (ParseError.unexpectedTokenTopLevel (Token.Numeric "1"))
    [Declaration.Comment "c"] (by decide)
  exact ⟨h.1, h.2 [Declaration.Comment "c"]⟩

/-- C8 (counterexample): `"func \x7b"` scans to `[Keyword Func, Pair open
curly]` and its parse fails with the `Expected Identifier` error, whose
panic message does not name the unexpected `Pair` token, contrary to the
claim. -/
theorem func_missing_identifier_counterexample :
    scanStr "func \x7b" =
      [Token.Keyword Keyword.Func,
       Token.Pair PairSymbol.CurlyBracket PairType.Open] ∧
    parse (scanStr "func \x7b") = Except.error ParseError.expectedIdentifier ∧
    ParseError.expectedIdentifier.mentionedToken = none ∧
    ParseError.expectedIdentifier.mentionedToken
      ≠ some (Token.Pair PairSymbol.CurlyBracket PairType.Open) := by
  refine ⟨by decide, by decide, by decide, by decide⟩

/-- C8 (amended): whenever a top-level `Keyword(Func)` is not immediately
followed by an `Identifier` token (end of input included), the parse fails
with the `Expected Identifier` syntax error — an error that does not name
the unexpected token; in particular the token sequence of `"func \x7b"`
fails with that error. -/
theorem func_missing_identifier_amended :
    (∀ (fuel : Nat) (acc : List Declaration) (rest : List Token),
      (∀ s, rest.head? ≠ some (Token.Identifier s)) →
      parse_loop (fuel + 1) acc (Token.Keyword Keyword.Func :: rest)
        = some (Except.error (ParseError.expectedIdentifier, acc))) ∧
    (∀ rest : List Token, (∀ s, rest.head? ≠ some (Token.Identifier s)) →
      parse (Token.Keyword Keyword.Func :: rest)
        = Except.error ParseError.expectedIdentifier) ∧
    parse (scanStr "func \x7b") = Except.error ParseError.expectedIdentifier := by
  refine ⟨parse_loop_func_noident, ?_, by decide⟩
  intro rest h
  have hl := parse_loop_func_noident (rest.length + 1) [] rest h
  simp [parse, hl]

/-- C8 (witness): the amended statement applied at end-of-input after
`func` and at the concrete `"func \x7b"` token sequence. -/
theorem func_missing_identifier_witness :
    parse_loop 1 [] [Token.Keyword Keyword.Func]
      = some (Except.error (ParseError.expectedIdentifier, [])) ∧
    parse [Token.Keyword Keyword.Func,
      Token.Pair PairSymbol.CurlyBracket PairType.Open]
      = Except.error ParseError.expectedIdentifier :=
  ⟨by simpa using func_missing_identifier_amended.1 0 [] [] (by simp),
   func_missing_identifier_amended.2.1
     [Token.Pair PairSymbol.CurlyBracket PairType.Open] (by simp)⟩

/-- C9: both passes terminate on finite input — the fuelled scanner loop
succeeds whenever the fuel covers the character count, and the fuelled
parser loop succeeds whenever the fuel exceeds the token count, so both
are total functions of their finite input. -/
theorem scan_parse_terminate :
    (∀ (fuel : Nat) (s : List Char), s.length ≤ fuel →
      scanGoF fuel s ≠ none) ∧
    (∀ (fuel : Nat) (acc : List Declaration) (ts : List Token),
      ts.length < fuel → parse_loop fuel acc ts ≠ none) := by
  constructor
  · intro fuel s h
    obtain ⟨l, hl⟩ := scanGoF_total fuel s h
    simp [hl]
  · exact parse_loop_total

/-- C9 (witness): termination bounds applied at concrete inputs. -/
theorem scan_parse_terminate_witness :
    scanGoF 1 ['a'] ≠ none ∧ parse_loop 1 [] [] ≠ none :=
  ⟨scan_parse_terminate.1 1 ['a'] (by decide),
   scan_parse_terminate.2 1 [] [] (by decide)⟩

/-- C10: in every declaration sequence a successful `parse` returns, every
`Declaration.Function` has an empty body, because `parse_expression`
always returns no expression and hence `parse_statement` never produces a
statement. -/
theorem parse_function_bodies_empty (ts : List Token) (ds : List Declaration)
    (h : parse ts = Except.ok ds) :
    ∀ d ∈ ds, ∀ (name : String) (body : List Statement),
      d = Declaration.Function name body → body = [] := by
  intro d hd name body hdf
  subst hdf
  cases hp : parse_loop (ts.length + 1) [] ts with
  | none => simp [parse, hp] at h
  | some res =>
    cases res with
    | error pr =>
      rcases pr with ⟨e, ds2⟩
      simp [parse, hp] at h
    | ok ds2 =>
      simp only [parse, hp] at h
      simp only [Except.ok.injEq] at h
      subst h
      exact parse_loop_functions (ts.length + 1) [] ts ds2 hp
        (by simp) name body hd

/-- C10 (witness): a successful parse with a function declaration, whose
body the theorem certifies to be empty. -/
theorem parse_function_bodies_empty_witness :
    parse [Token.Keyword Keyword.Func, Token.Identifier "main",
      Token.Pair PairSymbol.CurlyBracket PairType.Open,
      Token.Pair PairSymbol.CurlyBracket PairType.Close]
      = Except.ok [Declaration.Function "main" []] ∧
    ([] : List Statement) = [] :=
  ⟨by decide,
   parse_function_bodies_empty
     [Token.Keyword Keyword.Func, Token.Identifier "main",
      Token.Pair PairSymbol.CurlyBracket PairType.Open,
      Token.Pair PairSymbol.CurlyBracket PairType.Close]
     [Declaration.Function "main" []] (by decide)
     (Declaration.Function "main" []) (by decide) "main" [] rfl⟩
